import Mathlib

/-!
# Virtual-memory subsystem of the Pintos teaching kernel

A shallow embedding of `vm/vm.c`, `vm/uninit.c` and `vm/file.c`.

* A `struct page *` is `Option page`; `none` is `NULL`.  Every page the code
  dereferences lives in the supplemental page table of the running thread, so
  a store through a page pointer is `page_store`, which overwrites the table
  element that has the same key `va`.
* `void *` addresses, `size_t` and `uintptr_t` values are natural numbers;
  unsigned arithmetic that can wrap carries an explicit `% WORD`.  In
  `do_mmap` the page pointer wraps at `WORD` and the 32-bit signed `off_t`
  offset wraps as the machine does (`wrap_off_t`).
* A `struct frame *` is `Option frame`.  The frame records passed to `free`
  are kept in `freed_frames`; `anon_copy`, which reads through
  `dst_page->frame` after a claim whose result it does not look at, has no
  result when that record was freed.
* A call that does not return (kernel `PANIC`, a failed `ASSERT`, a `NULL`
  dereference, or a loop that is still running when the fuel is used up)
  evaluates to `none`.
-/

namespace Pintos

/-! ## Constants of `threads/vaddr.h` and `vm/vm.h` -/

/-- Modelled from the spec: the page size `PGSIZE` (`1 << 12`) of the absent
header `threads/vaddr.h`. -/
def PGSIZE : Nat := 4096

/-- Modelled from the spec: the first kernel virtual address `KERN_BASE` of the
absent header `threads/vaddr.h`; addresses from it on are not legitimate user
addresses.  No result below depends on its value. -/
def KERN_BASE : Nat := 0x8004000000

/-- Number of values of a 64-bit `size_t` / `uintptr_t`. -/
def WORD : Nat := 2 ^ 64

/-- Modelled from the spec: `pg_round_down` of `threads/vaddr.h`, the address
with its page-offset bits cleared. -/
def pg_round_down (va : Nat) : Nat := va - va % PGSIZE

/-- Modelled from the spec: `is_kernel_vaddr` of `threads/vaddr.h`. -/
def is_kernel_vaddr (va : Nat) : Bool := decide (KERN_BASE ≤ va)

/-- Modelled from the spec: `enum vm_type` of the absent header `vm/vm.h`; the
low three bits select the kind, higher bits are markers. -/
def VM_UNINIT : Nat := 0

/-- The kind of anonymous pages. -/
def VM_ANON : Nat := 1

/-- The kind of file-backed pages. -/
def VM_FILE : Nat := 2

/-- The macro `VM_TYPE(type)`, which is `(type) & 7`. -/
def VM_TYPE (type : Nat) : Nat := type % 8

/-! ## Data model -/

/-- The tag `enum uninit_aux_type` of `vm/uninit.h`. -/
inductive uninit_aux_type where
  | UNINIT_AUX_LOAD
  | UNINIT_AUX_FILE
  | UNINIT_AUX_ANON
  deriving DecidableEq, Repr

/-- The record `struct uninit_aux`.  The members `aux_load` and `aux_file` of
its union lay out a file pointer, an offset and two byte counts in the same
places; `mmap_base` is the extra member of `aux_file`.  A file pointer is a
natural number, `0` being `NULL`. -/
structure uninit_aux where
  type : uninit_aux_type
  file : Nat
  page_pos : Int
  page_read_bytes : Nat
  page_zero_bytes : Nat
  mmap_base : Nat
  deriving DecidableEq, Repr

/-- The functions a `vm_initializer *` of this code can point to. -/
inductive vm_initializer where
  | file_load
  deriving DecidableEq, Repr

/-- The functions the member `page_initializer` can point to. -/
inductive page_initializer where
  | anon_initializer
  | file_backed_initializer
  deriving DecidableEq, Repr

/-- The three operation tables `uninit_ops`, `anon_ops` and `file_ops`. -/
inductive page_operations where
  | uninit_ops
  | anon_ops
  | file_ops
  deriving DecidableEq, Repr

/-- The member `type` of an operation table. -/
def page_operations.type : page_operations → Nat
  | .uninit_ops => VM_UNINIT
  | .anon_ops => VM_ANON
  | .file_ops => VM_FILE

/-- The record `struct uninit_page` of `vm/uninit.h`. -/
structure uninit_page where
  init : Option vm_initializer
  type : Nat
  aux : Option uninit_aux
  page_initializer : page_initializer
  deriving DecidableEq, Repr

/-- The record `struct file_page`, with the members `file_load` assigns. -/
structure file_page where
  mapped_file : Nat
  mmap_base : Nat
  pos : Int
  read_bytes : Nat
  zero_bytes : Nat
  deriving DecidableEq, Repr

/-- The record `struct frame`: the kernel address of the physical page and the
back-reference to the owning page, which is held as that page's key. -/
structure frame where
  kva : Nat
  page : Option Nat
  deriving DecidableEq, Repr

/-- The record `struct page`.  The members `uninit` and `file` of its union
are kept side by side: the code reads `file` only after `file_load` wrote it. -/
structure page where
  operations : page_operations
  va : Nat
  frame : Option frame
  writable : Bool
  uninit : uninit_page
  file : file_page
  deriving DecidableEq, Repr

/-- The function `page_get_type`. -/
def page_get_type (page : page) : Nat :=
  let ty := VM_TYPE page.operations.type
  if ty = VM_UNINIT then VM_TYPE page.uninit.type else ty

/-! ## Supplemental page table -/

/-- Modelled from the spec: `hash_find` of the absent kernel hash library, on
the table ordered by `page_less`: the element whose `va` equals the key. -/
def hash_find (hs_table : List page) (va : Nat) : Option page :=
  hs_table.find? (fun p => p.va == va)

/-- Modelled from the spec: `hash_insert` of the absent kernel hash library: an
equal element already in the table is returned and the table is left alone,
otherwise the new element is added and `NULL` is returned. -/
def hash_insert (hs_table : List page) (new : page) : Option page × List page :=
  match hash_find hs_table new.va with
  | some old => (some old, hs_table)
  | none => (none, new :: hs_table)

/-- A store through a page pointer: the table element with the key of `p`
becomes `p`. -/
def page_store (hs_table : List page) (p : page) : List page :=
  hs_table.map (fun q => if q.va == p.va then p else q)

/-- The function `spt_find_page`. -/
def spt_find_page (spt : List page) (va : Nat) : Option page :=
  hash_find spt (pg_round_down va)

/-- The function `spt_insert_page`; the table is never `NULL` here. -/
def spt_insert_page (spt : List page) (page : Option page) : Bool × List Pintos.page :=
  match page with
  | none => (false, spt)
  | some p =>
    match hash_insert spt p with
    | (some _, t) => (false, t)
    | (none, t) => (true, t)

/-! ## Kernel state seen by the subsystem -/

/-- One present entry of the page table `pml4` of the running thread. -/
structure pte where
  va : Nat
  kva : Nat
  writable : Bool
  dirty : Bool
  deriving DecidableEq, Repr

/-- One call of `file_write_at` made by `write_back`: the page it was made
for, then the four arguments of the call. -/
structure write_call where
  page : Nat
  file : Nat
  kva : Nat
  size : Nat
  ofs : Int
  deriving DecidableEq, Repr

/-- The state the subsystem works on: the table and the `pml4` of
`thread_current ()`, the free pages of the user pool, the outcomes of the
calls whose result the environment decides (`malloc`, `pml4_set_page`,
`file_reopen`, and initializers whose return value the source leaves open),
the open files, the file contents, the contents of the physical pages, the
record of the calls of `file_write_at`, `file_close` and `free (page)`, and
the frame records that were passed to `free` and not handed out again. -/
structure vm_state where
  spt : List page
  pml4 : List pte
  user_pool : List Nat
  oracle : List Bool
  files : List (Nat × Nat)
  next_file : Nat
  disk : List (Nat × List Nat)
  mem : List (Nat × List Nat)
  writes : List write_call
  closed : List Nat
  freed : List Nat
  freed_frames : List frame := []
  deriving DecidableEq, Repr

/-- The next outcome decided by the environment; success once the list is
used up. -/
def oracle_next (st : vm_state) : Bool × vm_state :=
  match st.oracle with
  | [] => (true, st)
  | b :: rest => (b, { st with oracle := rest })

/-- Modelled from the spec: `malloc` of the absent `threads/malloc.c`; only
whether it returns `NULL` matters. -/
def malloc (st : vm_state) : Bool × vm_state := oracle_next st

/-- Modelled from the spec: `pml4_set_page` of the absent `threads/mmu.c`
(the MMU interface `set_mapping`): on success the entry of `upage` is
replaced by a fresh one. -/
def pml4_set_page (st : vm_state) (upage kpage : Nat) (rw : Bool) : Bool × vm_state :=
  match oracle_next st with
  | (false, st1) => (false, st1)
  | (true, st1) =>
    (true, { st1 with pml4 := ⟨upage, kpage, rw, false⟩ :: st1.pml4.filter (fun e => e.va != upage) })

/-- Modelled from the spec: `pml4_clear_page` of the absent `threads/mmu.c`
(the MMU interface `clear_mapping`). -/
def pml4_clear_page (st : vm_state) (upage : Nat) : vm_state :=
  { st with pml4 := st.pml4.filter (fun e => e.va != upage) }

/-- Modelled from the spec: `pml4_is_dirty` of the absent `threads/mmu.c`
(the MMU interface `is_dirty`). -/
def pml4_is_dirty (pml4 : List pte) (vpage : Nat) : Bool :=
  match pml4.find? (fun e => e.va == vpage) with
  | some e => e.dirty
  | none => false

/-- Modelled from the spec: `file_reopen` of the absent `filesys/file.c`: a new
handle on the inode of `file`, or `NULL`.  A `file` that is not open is an
invalid pointer. -/
def file_reopen (st : vm_state) (file : Nat) : Option (Nat × vm_state) :=
  match st.files.find? (fun f => f.1 == file) with
  | none => none
  | some f =>
    match oracle_next st with
    | (false, st1) => some (0, st1)
    | (true, st1) =>
      some (st1.next_file + 1,
        { st1 with files := (st1.next_file + 1, f.2) :: st1.files, next_file := st1.next_file + 1 })

/-- Modelled from the spec: `file_close` of the absent `filesys/file.c`. -/
def file_close (st : vm_state) (file : Nat) : vm_state :=
  { st with files := st.files.filter (fun f => f.1 != file), closed := st.closed ++ [file] }

/-- The bytes of the file behind an open handle. -/
def file_data (st : vm_state) (file : Nat) : Option (List Nat) :=
  match st.files.find? (fun f => f.1 == file) with
  | none => none
  | some f =>
    match st.disk.find? (fun d => d.1 == f.2) with
    | none => some []
    | some d => some d.2

/-- The bytes of the physical page at `kva`. -/
def mem_load (st : vm_state) (kva : Nat) : List Nat :=
  match st.mem.find? (fun m => m.1 == kva) with
  | some m => m.2
  | none => []

/-- A physical page after `src` is copied to its offset `pos`; bytes that
fall outside the page are dropped. -/
def blit (buf : List Nat) (pos : Nat) (src : List Nat) : List Nat :=
  (List.range PGSIZE).map
    (fun k => if pos ≤ k ∧ k < pos + src.length then src.getD (k - pos) 0 else buf.getD k 0)

/-- Copy `src` into the physical page at `kva`, from its offset `pos` on. -/
def mem_store (st : vm_state) (kva pos : Nat) (src : List Nat) : vm_state :=
  { st with mem := (kva, blit (mem_load st kva) pos src) :: st.mem.filter (fun m => m.1 != kva) }

/-- Modelled from the spec: `file_read_at` of the absent `filesys/file.c`
(the filesystem interface `read_at`): copies the bytes of the file that lie in
`[ofs, ofs + size)` to the buffer, stopping at the end of the file. -/
def file_read_at (st : vm_state) (file kva size : Nat) (ofs : Int) : Option vm_state :=
  match file_data st file with
  | none => none
  | some d => some (mem_store st kva 0 (if ofs < 0 then [] else (d.drop ofs.toNat).take size))

/-- The function `memset (dst, 0, n)` on the physical page at `kva`, with
`dst` at its offset `pos`. -/
def memset_zero (st : vm_state) (kva pos n : Nat) : vm_state :=
  mem_store st kva pos (List.replicate n 0)

/-! ## `vm/uninit.c` and the initializers -/

/-- The function `uninit_new`, as the page value it writes to `*page`;
members the compound literal does not name are zero. -/
def uninit_new (va : Nat) (init : Option vm_initializer) (type : Nat)
    (aux : Option uninit_aux) (initializer : page_initializer) : page :=
  { operations := .uninit_ops
    va := va
    frame := none
    writable := false
    uninit := { init := init, type := type, aux := aux, page_initializer := initializer }
    file := { mapped_file := 0, mmap_base := 0, pos := 0, read_bytes := 0, zero_bytes := 0 } }

/-- The function `file_backed_initializer`: it installs `file_ops`; the source
has no `return`, so the value the caller sees is left to the environment. -/
def file_backed_initializer (st : vm_state) (page : page) : Bool × Pintos.page × vm_state :=
  let p1 := { page with operations := .file_ops }
  let r := oracle_next { st with spt := page_store st.spt p1 }
  (r.1, p1, r.2)

/-- Modelled from the spec: `anon_initializer` of the absent `vm/anon.c`: it
installs the protocol table of the anonymous variant and reports whether it
succeeded. -/
def anon_initializer (st : vm_state) (page : page) : Bool × Pintos.page × vm_state :=
  let p1 := { page with operations := .anon_ops }
  let r := oracle_next { st with spt := page_store st.spt p1 }
  (r.1, p1, r.2)

/-- The function `file_load` of `vm/file.c`. -/
def file_load (st : vm_state) (page : page) (aux : Option uninit_aux) : Option (Bool × vm_state) :=
  match page.frame, aux with
  | some fr, some aux_file =>
    let p1 := { page with file :=
      { mapped_file := aux_file.file
        mmap_base := aux_file.mmap_base
        pos := aux_file.page_pos
        read_bytes := aux_file.page_read_bytes
        zero_bytes := aux_file.page_zero_bytes } }
    let st1 := { st with spt := page_store st.spt p1 }
    match file_read_at st1 aux_file.file fr.kva aux_file.page_read_bytes aux_file.page_pos with
    | none => none
    | some st2 =>
      some (true, memset_zero st2 fr.kva aux_file.page_read_bytes aux_file.page_zero_bytes)
  | _, _ => none

/-- The function `uninit_initialize`. -/
def uninit_initialize (st : vm_state) (page : page) : Option (Bool × vm_state) :=
  let init := page.uninit.init
  let aux := page.uninit.aux
  let r := match page.uninit.page_initializer with
    | .anon_initializer => anon_initializer st page
    | .file_backed_initializer => file_backed_initializer st page
  match r with
  | (false, _, st1) => some (false, st1)
  | (true, p1, st1) =>
    match init with
    | none => some (true, st1)
    | some .file_load => file_load st1 p1 aux

/-- The macro `swap_in (page, v)`, which calls the `swap_in` member of the
operation table of the page.  The bodies of `anon_swap_in` (absent) and
`file_backed_swap_in` (empty) fix no return value. -/
def swap_in (st : vm_state) (page : page) : Option (Bool × vm_state) :=
  match page.operations with
  | .uninit_ops => uninit_initialize st page
  | .anon_ops => some (oracle_next st)
  | .file_ops => some (oracle_next st)

/-- The function `uninit_destroy`. -/
def uninit_destroy (st : vm_state) (page : page) : vm_state :=
  match page.uninit.aux with
  | some _ =>
    { st with spt := page_store st.spt { page with uninit := { page.uninit with aux := none } } }
  | none => st

/-- The function `write_back` of `vm/file.c`. -/
def write_back (st : vm_state) (page : page) : Option vm_state :=
  match page.frame with
  | none => none
  | some fr =>
    some { st with writes := st.writes ++
      [⟨page.va, page.file.mapped_file, fr.kva, page.file.read_bytes, page.file.pos⟩] }

/-- The function `file_backed_destroy`. -/
def file_backed_destroy (st : vm_state) (page : page) : Option vm_state :=
  let r := if pml4_is_dirty st.pml4 page.va then write_back st page else some st
  match r with
  | none => none
  | some st1 =>
    if page.file.mapped_file = 0 then some st1 else some (file_close st1 page.file.mapped_file)

/-- The macro `destroy (page)`, which calls the `destroy` member of the
operation table of the page; `anon_destroy` of the absent `vm/anon.c` is
taken to release nothing this state records. -/
def destroy (st : vm_state) (page : page) : Option vm_state :=
  match page.operations with
  | .uninit_ops => some (uninit_destroy st page)
  | .anon_ops => some st
  | .file_ops => file_backed_destroy st page

/-! ## `vm/vm.c` -/

/-- The function `vm_alloc_page_with_initializer`. -/
def vm_alloc_page_with_initializer (st : vm_state) (type upage : Nat) (writable : Bool)
    (init : Option vm_initializer) (aux : Option uninit_aux) : Option (Bool × vm_state) :=
  if VM_TYPE type = VM_UNINIT then none
  else if (spt_find_page st.spt upage).isNone then
    match malloc st with
    | (false, st1) => some (false, st1)
    | (true, st1) =>
      let type_initializer : Option page_initializer :=
        if VM_TYPE type = VM_ANON then some .anon_initializer
        else if VM_TYPE type = VM_FILE then some .file_backed_initializer
        else none
      match type_initializer with
      | none => some (false, st1)
      | some ti =>
        let page := { uninit_new upage init type aux ti with writable := writable }
        match spt_insert_page st1.spt (some page) with
        | (false, _) => some (false, st1)
        | (true, t) => some (true, { st1 with spt := t })
  else some (false, st)

/-- Modelled from the spec: `palloc_get_page (PAL_USER)` of the absent
`threads/palloc.c`: the first free page of the user pool, or `NULL`. -/
def palloc_get_page (st : vm_state) : Option Nat × vm_state :=
  match st.user_pool with
  | [] => (none, st)
  | kva :: rest => (some kva, { st with user_pool := rest })

/-- Modelled from the spec: `palloc_free_page` of the absent
`threads/palloc.c`: the page goes back to the pool. -/
def palloc_free_page (st : vm_state) (kva : Nat) : vm_state :=
  { st with user_pool := kva :: st.user_pool }

/-- The function `vm_get_frame`. -/
def vm_get_frame (st : vm_state) : Option (Option frame × vm_state) :=
  match palloc_get_page st with
  | (none, _) => none
  | (some user_new_page, st1) =>
    match malloc st1 with
    | (false, st2) => some (none, palloc_free_page st2 user_new_page)
    | (true, st2) => some (some { kva := user_new_page, page := none }, st2)

/-- The function `vm_dealloc_frame`: `palloc_free_page (frame->kva)`, then
`free (frame)`. -/
def vm_dealloc_frame (st : vm_state) (frame : frame) : vm_state :=
  let st1 := palloc_free_page st frame.kva
  { st1 with freed_frames := st1.freed_frames ++ [frame] }

/-- The function `vm_do_claim_page`.  The frame record that `vm_get_frame`
obtained from `malloc` is a live one, whatever was freed before. -/
def vm_do_claim_page (st : vm_state) (page : Option page) : Option (Bool × vm_state) :=
  match vm_get_frame st with
  | none => none
  | some (none, st1) => some (false, st1)
  | some (some fr, st1) =>
    match page with
    | none => some (false, st1)
    | some p =>
      let fr1 := { fr with page := some p.va }
      let p1 := { p with frame := some fr1 }
      let st2 := { st1 with
        spt := page_store st1.spt p1
        freed_frames := st1.freed_frames.filter (fun f => f != fr1) }
      match pml4_set_page st2 p1.va fr1.kva p1.writable with
      | (false, st3) => some (false, vm_dealloc_frame st3 fr1)
      | (true, st3) =>
        match swap_in st3 p1 with
        | none => none
        | some (false, st4) => some (false, vm_dealloc_frame (pml4_clear_page st4 p1.va) fr1)
        | some (true, st4) => some (true, st4)

/-- The function `vm_try_handle_fault`; the interrupt frame is not used. -/
def vm_try_handle_fault (st : vm_state) (addr : Nat) (_user write _not_present : Bool) :
    Option (Bool × vm_state) :=
  if is_kernel_vaddr addr || addr == 0 then some (false, st)
  else
    match spt_find_page st.spt addr with
    | none => some (false, st)
    | some page =>
      if write && !page.writable then some (false, st)
      else vm_do_claim_page st (some page)

/-- The function `vm_dealloc_page`: `destroy (page)`, then `free (page)`. -/
def vm_dealloc_page (st : vm_state) (page : page) : Option vm_state :=
  match destroy st page with
  | none => none
  | some st1 => some { st1 with freed := st1.freed ++ [page.va] }

/-- The function `spt_remove_page`. -/
def spt_remove_page (st : vm_state) (page : page) : Option vm_state :=
  vm_dealloc_page st page

/-! ## `vm/file.c` -/

/-- The function `get_group_number`; reading through a `NULL` auxiliary
pointer does not return. -/
def get_group_number (page : page) : Option Nat :=
  match page.operations with
  | .file_ops => some page.file.mmap_base
  | .uninit_ops =>
    match page.uninit.aux with
    | none => none
    | some aux => some aux.mmap_base
  | .anon_ops => some 0

/-- The loop of `valid_vma_range`, one iteration per unit of fuel: `none` when
the loop is still running after `fuel` iterations.  Both variables are
unsigned 64-bit. -/
def valid_vma_range : Nat → List page → Nat → Nat → Option Bool
  | 0, _, _, _ => none
  | fuel + 1, spt, vaild_addr_ptr, valid_length =>
    if valid_length > 0 then
      if (spt_find_page spt vaild_addr_ptr).isSome then some false
      else
        let move_bytes := if PGSIZE < valid_length then PGSIZE else valid_length
        valid_vma_range fuel spt ((vaild_addr_ptr + move_bytes) % WORD)
          ((valid_length + WORD - PGSIZE) % WORD)
    else some true

/-- Modelled from the spec: the type `off_t` of the absent header
`filesys/off_t.h`, a 32-bit signed integer; the value of an `off_t`
computation, brought back into its range as the machine does. -/
def wrap_off_t (x : Int) : Int := (x + 2147483648) % 4294967296 - 2147483648

/-- The macro `DIV_ROUND_UP (X, STEP)` of `round.h` on `size_t`. -/
def DIV_ROUND_UP (x step : Nat) : Nat := ((x + step - 1) % WORD) / step

/-- The `for` loop of `do_mmap` with `n` iterations left; the result is the
returned pointer (`0` is `NULL`) and the state.  `upage` is a 64-bit pointer
and `ofs` an `off_t`. -/
def do_mmap_loop (addr : Nat) (writable : Bool) (file : Nat) :
    Nat → vm_state → Nat → Int → Nat → Option (Nat × vm_state)
  | 0, st, _, _, _ => some (addr, st)
  | n + 1, st, upage, ofs, read_bytes =>
    let page_read_bytes := if read_bytes < PGSIZE then read_bytes else PGSIZE
    let page_zero_bytes := PGSIZE - page_read_bytes
    match file_reopen st file with
    | none => none
    | some (d_file, st1) =>
      if d_file = 0 then some (0, st1)
      else
        match malloc st1 with
        | (false, _) => none
        | (true, st2) =>
          let aux : uninit_aux :=
            { type := .UNINIT_AUX_FILE
              file := d_file
              mmap_base := addr
              page_pos := ofs
              page_read_bytes := page_read_bytes
              page_zero_bytes := page_zero_bytes }
          match vm_alloc_page_with_initializer st2 VM_FILE upage writable
              (some .file_load) (some aux) with
          | none => none
          | some (false, st3) => some (0, st3)
          | some (true, st3) =>
            do_mmap_loop addr writable file n st3 ((upage + PGSIZE) % WORD)
              (wrap_off_t (ofs + PGSIZE)) (read_bytes - page_read_bytes)

/-- The function `do_mmap`; `fuel` bounds the loop of `valid_vma_range`. -/
def do_mmap (fuel : Nat) (st : vm_state) (addr length : Nat) (writable : Bool)
    (file : Nat) (offset : Int) : Option (Nat × vm_state) :=
  match valid_vma_range fuel st.spt addr length with
  | none => none
  | some false => some (0, st)
  | some true =>
    do_mmap_loop addr writable file (DIV_ROUND_UP length PGSIZE) st addr offset length

/-- The `while (true)` loop of `do_munmap`, one iteration per unit of fuel. -/
def do_munmap_loop (group_number : Nat) : Nat → vm_state → Nat → Option vm_state
  | 0, _, _ => none
  | fuel + 1, st, addr =>
    match spt_find_page st.spt addr with
    | none => some st
    | some page =>
      if page_get_type page ≠ VM_FILE then some st
      else
        match get_group_number page with
        | none => none
        | some g =>
          if g ≠ group_number then some st
          else
            match spt_remove_page st page with
            | none => none
            | some st1 => do_munmap_loop group_number fuel st1 (addr + PGSIZE)

/-- The function `do_munmap`. -/
def do_munmap (fuel : Nat) (st : vm_state) (addr : Nat) : Option vm_state :=
  match spt_find_page st.spt addr with
  | none => some st
  | some pivot_page =>
    if page_get_type pivot_page ≠ VM_FILE then some st
    else
      match get_group_number pivot_page with
      | none => none
      | some group_number => do_munmap_loop group_number fuel st addr

/-! ## Teardown and fork-copy of a table -/

/-- The function `page_destroy`, the destructor handed to `hash_destroy`. -/
def page_destroy (st : vm_state) (e : Option page) : Option vm_state :=
  match e with
  | none => some st
  | some cur =>
    match destroy st cur with
    | none => none
    | some st1 => some { st1 with freed := st1.freed ++ [cur.va] }

/-- Modelled from the spec: the walk of `hash_destroy` of the absent kernel
hash library, which hands every element of the table to the destructor. -/
def hash_destroy_loop : List page → vm_state → Option vm_state
  | [], st => some st
  | e :: rest, st =>
    match page_destroy st (some e) with
    | none => none
    | some st1 => hash_destroy_loop rest st1

/-- The function `supplemental_page_table_kill`; after `hash_destroy` the
table has no element. -/
def supplemental_page_table_kill (st : vm_state) : Option vm_state :=
  match hash_destroy_loop st.spt st with
  | none => none
  | some st1 => some { st1 with spt := [] }

/-- The `PGSIZE` bytes of the physical page at `kva`. -/
def page_bytes (st : vm_state) (kva : Nat) : List Nat := blit (mem_load st kva) 0 []

/-- The operation table each initializer of a target kind installs. -/
def installed_ops : page_initializer → page_operations
  | .anon_initializer => .anon_ops
  | .file_backed_initializer => .file_ops

/-- The value of a page after a successful first `swap_in`: the operation
table of its target kind and, when the initializer is `file_load`, the
file-backed state copied from the auxiliary data. -/
def transmuted (p : page) : page :=
  { p with
    operations := installed_ops p.uninit.page_initializer
    file :=
      match p.uninit.init, p.uninit.aux with
      | some .file_load, some a =>
        { mapped_file := a.file, mmap_base := a.mmap_base, pos := a.page_pos,
          read_bytes := a.page_read_bytes, zero_bytes := a.page_zero_bytes }
      | _, _ => p.file }

/-! ## Units of a mapping -/

/-- The page the mapping design prescribes for unit `i` of a mapping with
base `base`, whose first unit lies at `upage`, starts at file offset `ofs`,
has `read_bytes` bytes left to read, and gets the file handle `handle0`: an
uninitialized page of target kind `VM_FILE` at `upage + i * PGSIZE` with the
requested writable bit, group identity `base`, file offset
`ofs + i * PGSIZE`, `min (PGSIZE, read_bytes - i * PGSIZE)` bytes to read,
the rest of the page to zero, and the handle `handle0 + i` of its own. -/
def mmap_unit (base upage : Nat) (ofs : Int) (read_bytes : Nat) (writable : Bool)
    (handle0 : Nat) (i : Nat) : page :=
  { operations := .uninit_ops
    va := upage + i * PGSIZE
    frame := none
    writable := writable
    uninit :=
      { init := some .file_load
        type := VM_FILE
        aux := some
          { type := .UNINIT_AUX_FILE
            file := handle0 + i
            page_pos := ofs + ((i * PGSIZE : Nat) : Int)
            page_read_bytes := min PGSIZE (read_bytes - i * PGSIZE)
            page_zero_bytes := PGSIZE - min PGSIZE (read_bytes - i * PGSIZE)
            mmap_base := base }
        page_initializer := .file_backed_initializer }
    file := { mapped_file := 0, mmap_base := 0, pos := 0, read_bytes := 0, zero_bytes := 0 } }

/-! ## Sample inputs -/

/-- A state with an empty table, two free user pages, and one open file with
handle `7` whose contents are three bytes. -/
def sample_state : vm_state :=
  { spt := []
    pml4 := []
    user_pool := [0x8004100000, 0x8004101000]
    oracle := []
    files := [(7, 1)]
    next_file := 7
    disk := [(1, [1, 2, 3])]
    mem := []
    writes := []
    closed := []
    freed := [] }

/-- A writable uninitialized page of target kind `VM_FILE` at `0x400000`. -/
def sample_page : page :=
  { uninit_new 0x400000 none VM_FILE none .file_backed_initializer with writable := true }

/-- The sample state once `sample_page` is in its table. -/
def sample_allocated : vm_state := { sample_state with spt := [sample_page] }

/-- The sample state after `do_mmap (0x500000, 8192, false, 7, 0)`. -/
def sample_mapped : vm_state :=
  { sample_state with
    spt := [mmap_unit 0x500000 0x500000 0 8192 false 8 1, mmap_unit 0x500000 0x500000 0 8192 false 8 0]
    files := [(9, 1), (8, 1), (7, 1)]
    next_file := 9 }

/-- The auxiliary data of the only unit of a one-page writable mapping of the
sample file at `0x500000`. -/
def sample_unit_aux : uninit_aux :=
  { type := .UNINIT_AUX_FILE
    file := 8
    page_pos := 0
    page_read_bytes := 4096
    page_zero_bytes := 0
    mmap_base := 0x500000 }

/-- The page of that unit. -/
def sample_unit : page := mmap_unit 0x500000 0x500000 0 4096 true 8 0

/-- The sample state after `do_mmap (0x500000, 4096, true, 7, 0)`. -/
def sample_before_fault : vm_state :=
  { sample_state with spt := [sample_unit], files := [(8, 1), (7, 1)], next_file := 8 }

/-- A state after the page of the unit was faulted in and written to: the
table the claim leaves, and a dirty mapping. -/
def sample_dirty : vm_state :=
  { sample_before_fault with
    spt := [transmuted { sample_unit with frame := some ⟨0x8004100000, some 0x500000⟩ }]
    pml4 := [⟨0x500000, 0x8004100000, true, true⟩]
    user_pool := [0x8004101000] }

/-- The sample state before the fault of the one-page mapping, the first free
user page still holding the bytes `7, 7, 7, 7, 7` of an earlier use. -/
def sample_stale : vm_state :=
  { sample_before_fault with mem := [(0x8004100000, [7, 7, 7, 7, 7])] }

/-! ## Facts about the table -/

theorem pg_round_down_idem (a : Nat) : pg_round_down (pg_round_down a) = pg_round_down a := by
  unfold pg_round_down PGSIZE
  omega

theorem pg_round_down_aligned (a : Nat) (h : a % PGSIZE = 0) : pg_round_down a = a := by
  unfold pg_round_down
  omega

theorem pg_round_down_mod (a : Nat) : pg_round_down a % PGSIZE = 0 := by
  unfold pg_round_down PGSIZE
  omega

theorem hash_find_va {t : List page} {k : Nat} {p : page} (h : hash_find t k = some p) :
    p.va = k := by
  unfold hash_find at h
  have := List.find?_some h
  simpa using this

theorem hash_find_mem {t : List page} {k : Nat} {p : page} (h : hash_find t k = some p) :
    p ∈ t := by
  unfold hash_find at h
  exact List.mem_of_find?_eq_some h

theorem hash_find_cons (q : page) (t : List page) (k : Nat) :
    hash_find (q :: t) k = if q.va = k then some q else hash_find t k := by
  unfold hash_find
  by_cases h : q.va = k <;> simp [List.find?_cons, h]

theorem hash_find_page_store (t : List page) (p : page) (k : Nat) :
    hash_find (page_store t p) k
      = if k = p.va then (hash_find t k).map (fun _ => p) else hash_find t k := by
  induction t with
  | nil => simp [page_store, hash_find]
  | cons q t ih =>
    have ih2 : hash_find (List.map (fun q => if q.va == p.va then p else q) t) k
        = if k = p.va then (hash_find t k).map (fun _ => p) else hash_find t k := ih
    simp only [page_store, List.map_cons, hash_find_cons, ih2]
    by_cases h1 : q.va = p.va
    · by_cases h2 : k = p.va
      · simp [h1, h2]
      · have h3 : ¬ p.va = k := fun e => h2 e.symm
        simp [h1, h2, h3]
    · by_cases h2 : k = p.va
      · have h3 : ¬ q.va = k := fun e => h1 (e.trans h2)
        simp [h1, h2, h3]
      · simp [h1, h2]

theorem page_store_length (t : List page) (p : page) : (page_store t p).length = t.length := by
  simp [page_store]

theorem page_store_keys (t : List page) (p : page) :
    (page_store t p).map (fun q => q.va) = t.map (fun q => q.va) := by
  induction t with
  | nil => simp [page_store]
  | cons q t ih =>
    have ih2 : List.map (fun q => q.va) (List.map (fun q => if q.va == p.va then p else q) t)
        = List.map (fun q => q.va) t := ih
    simp only [page_store, List.map_cons, ih2]
    by_cases h : q.va = p.va <;> simp [h]

theorem spt_find_page_round (spt : List page) (a : Nat) :
    spt_find_page spt (pg_round_down a) = spt_find_page spt a := by
  unfold spt_find_page
  rw [pg_round_down_idem]

/-! ## Lookup and insertion -/

/-- C1: for every table and every address `a`, `spt_find_page` returns for `a`
what it returns for `pg_round_down a`, the same page or `NULL` in both cases;
the lookup is page-granular. -/
theorem C1_spt_find_page_page_granular (spt : List page) (a : Nat) :
    spt_find_page spt a = spt_find_page spt (pg_round_down a) :=
  (spt_find_page_round spt a).symm

/-- C2: let `q` be a page whose address is page-aligned, as every page address
of the data model is.  If the table already holds a page `p` at that address,
`spt_insert_page` returns false, the table is the one it was, and the lookup
of the address still returns `p` with every field as before.  If the address
is not yet present, `spt_insert_page` returns true, a following lookup of the
address returns `q`, and the lookup of every other page is unchanged. -/
theorem C2_spt_insert_page_occupied_or_fresh (spt : List page) (q : page)
    (hal : q.va % PGSIZE = 0) :
    (∀ p, spt_find_page spt q.va = some p →
      spt_insert_page spt (some q) = (false, spt) ∧
      spt_find_page (spt_insert_page spt (some q)).2 q.va = some p) ∧
    (spt_find_page spt q.va = none →
      (spt_insert_page spt (some q)).1 = true ∧
      spt_find_page (spt_insert_page spt (some q)).2 q.va = some q ∧
      ∀ a, pg_round_down a ≠ q.va →
        spt_find_page (spt_insert_page spt (some q)).2 a = spt_find_page spt a) := by
  have hrd : pg_round_down q.va = q.va := pg_round_down_aligned _ hal
  constructor
  · intro p hp
    have hp2 : hash_find spt q.va = some p := by
      simpa [spt_find_page, hrd] using hp
    have hins : spt_insert_page spt (some q) = (false, spt) := by
      simp [spt_insert_page, hash_insert, hp2]
    exact ⟨hins, by rw [hins]; exact hp⟩
  · intro hn
    have hn2 : hash_find spt q.va = none := by
      simpa [spt_find_page, hrd] using hn
    have hins : spt_insert_page spt (some q) = (true, q :: spt) := by
      simp [spt_insert_page, hash_insert, hn2]
    rw [hins]
    refine ⟨rfl, ?_, ?_⟩
    · simp [spt_find_page, hrd, hash_find_cons]
    · intro a ha
      have ha2 : ¬ q.va = pg_round_down a := fun e => ha e.symm
      simp [spt_find_page, hash_find_cons, ha2]


/-- C2, at sample inputs: a second page at the occupied address `0x400000` is
refused, and the sample page enters the empty table. -/
theorem C2_spt_insert_page_occupied_or_fresh_witness :
    sample_page.va % PGSIZE = 0 ∧
    (spt_insert_page [{ sample_page with writable := false }] (some sample_page)
        = (false, [{ sample_page with writable := false }]) ∧
      spt_find_page
          (spt_insert_page [{ sample_page with writable := false }] (some sample_page)).2
          sample_page.va
        = some { sample_page with writable := false }) ∧
    (spt_insert_page [] (some sample_page)).1 = true :=
  ⟨by decide,
    (C2_spt_insert_page_occupied_or_fresh [{ sample_page with writable := false }] sample_page
      (by decide)).1 _ (by decide),
    ((C2_spt_insert_page_occupied_or_fresh [] sample_page (by decide)).2 (by decide)).1⟩

/-! ## Calls that leave the table alone -/

theorem oracle_next_eq (st : vm_state) :
    (oracle_next st).2 = { st with oracle := (oracle_next st).2.oracle } := by
  unfold oracle_next
  split <;> rfl

@[simp] theorem oracle_next_spt (st : vm_state) : (oracle_next st).2.spt = st.spt := by
  rw [oracle_next_eq]

@[simp] theorem oracle_next_pml4 (st : vm_state) : (oracle_next st).2.pml4 = st.pml4 := by
  rw [oracle_next_eq]

@[simp] theorem oracle_next_user_pool (st : vm_state) :
    (oracle_next st).2.user_pool = st.user_pool := by
  rw [oracle_next_eq]

@[simp] theorem oracle_next_writes (st : vm_state) : (oracle_next st).2.writes = st.writes := by
  rw [oracle_next_eq]

@[simp] theorem oracle_next_files (st : vm_state) : (oracle_next st).2.files = st.files := by
  rw [oracle_next_eq]

@[simp] theorem oracle_next_next_file (st : vm_state) :
    (oracle_next st).2.next_file = st.next_file := by
  rw [oracle_next_eq]

theorem page_store_page_store (t : List page) (a b : page) (h : a.va = b.va) :
    page_store (page_store t a) b = page_store t b := by
  simp only [page_store, List.map_map]
  apply List.map_congr_left
  intro q _
  by_cases h1 : q.va = b.va
  · have h2 : q.va = a.va := h1.trans h.symm
    simp [h1, h2, h]
  · have h2 : ¬ q.va = a.va := fun e => h1 (e.trans h)
    simp [h1, h2]

theorem vm_get_frame_some {st st1 : vm_state} {fr : frame}
    (h : vm_get_frame st = some (some fr, st1)) :
    st1.spt = st.spt ∧ st1.pml4 = st.pml4 ∧ st1.writes = st.writes ∧ fr.page = none ∧
      st.user_pool = fr.kva :: st1.user_pool := by
  unfold vm_get_frame palloc_get_page at h
  cases hp : st.user_pool with
  | nil => simp [hp] at h
  | cons k r =>
    simp only [hp] at h
    unfold malloc at h
    cases ho : oracle_next { st with user_pool := r } with
    | mk b s =>
      have hs : s = (oracle_next { st with user_pool := r }).2 := by rw [ho]
      cases b
      · simp [ho] at h
      · simp only [ho, Option.some.injEq, Prod.mk.injEq] at h
        obtain ⟨h1, h2⟩ := h
        subst h2
        rw [← h1, hs]
        simp

theorem pml4_set_page_spt (st : vm_state) (u k : Nat) (w : Bool) :
    (pml4_set_page st u k w).2.spt = st.spt ∧
    (pml4_set_page st u k w).2.writes = st.writes ∧
    (pml4_set_page st u k w).2.user_pool = st.user_pool := by
  unfold pml4_set_page
  cases ho : oracle_next st with
  | mk b s =>
    have hs : s = (oracle_next st).2 := by rw [ho]
    cases b <;> simp [hs]

theorem file_read_at_spt {st st1 : vm_state} {f k n : Nat} {o : Int}
    (h : file_read_at st f k n o = some st1) :
    st1.spt = st.spt ∧ st1.pml4 = st.pml4 ∧ st1.writes = st.writes ∧
      st1.user_pool = st.user_pool := by
  unfold file_read_at at h
  cases hd : file_data st f with
  | none => simp [hd] at h
  | some d =>
    simp only [hd, Option.some.injEq] at h
    subst h
    simp [mem_store]

/-- The page a successful first `swap_in` leaves behind. -/
theorem uninit_initialize_true {st st4 : vm_state} {p : page}
    (h : uninit_initialize st p = some (true, st4)) :
    st4.spt = page_store st.spt (transmuted p) ∧ st4.pml4 = st.pml4 ∧
      st4.writes = st.writes ∧ st4.user_pool = st.user_pool := by
  unfold uninit_initialize at h
  simp only at h
  split at h
  · simp at h
  · rename_i p1 st1 heq
    have hp1 : p1 = { p with operations := (transmuted p).operations } ∧
        st1.spt = page_store st.spt p1 ∧ st1.pml4 = st.pml4 ∧ st1.writes = st.writes ∧
        st1.user_pool = st.user_pool := by
      cases hpi : p.uninit.page_initializer
      all_goals
        simp only [hpi, anon_initializer, file_backed_initializer, Prod.mk.injEq] at heq
        obtain ⟨_, h1, h2⟩ := heq
        subst h1
        subst h2
        simp [transmuted, hpi, installed_ops]
    obtain ⟨hp1, hs1, hs2, hs3, hs4⟩ := hp1
    cases hi : p.uninit.init with
    | none =>
      simp only [hi, Option.some.injEq, Prod.mk.injEq, true_and] at h
      subst h
      refine ⟨?_, hs2, hs3, hs4⟩
      rw [hs1, hp1]
      simp [transmuted, hi]
    | some i =>
      cases i
      simp only [hi] at h
      unfold file_load at h
      have hfr1 : p1.frame = p.frame := by rw [hp1]
      cases hfr : p.frame with
      | none => simp [hfr1, hfr] at h
      | some fr =>
        cases ha : p.uninit.aux with
        | none => simp [hfr1, hfr, ha] at h
        | some a =>
          simp only [hfr1, hfr, ha] at h
          split at h
          · simp at h
          · rename_i st2 hrd
            simp only [Option.some.injEq, Prod.mk.injEq, true_and] at h
            subst h
            have := file_read_at_spt hrd
            simp only [memset_zero, mem_store, this, hs1, hs2, hs3, hs4, and_true]
            refine (page_store_page_store st.spt p1 _ ?_).trans ?_
            · rfl
            · rw [hp1]
              simp [transmuted, hi, ha, hfr]

theorem pml4_set_page_frame {st st3 : vm_state} {u k : Nat} {w b : Bool}
    (h : pml4_set_page st u k w = (b, st3)) :
    st3.spt = st.spt ∧ st3.writes = st.writes ∧ st3.user_pool = st.user_pool ∧
      st3.mem = st.mem ∧ st3.freed_frames = st.freed_frames := by
  unfold pml4_set_page at h
  cases ho : oracle_next st with
  | mk b1 s =>
    have hs : s = (oracle_next st).2 := by rw [ho]
    rw [oracle_next_eq] at hs
    rw [ho] at h
    cases b1
    · simp only [Prod.mk.injEq] at h
      rw [← h.2, hs]
      simp
    · simp only [Prod.mk.injEq] at h
      rw [← h.2, hs]
      simp

/-- The table after a successful claim of an uninitialized page. -/
theorem vm_do_claim_page_true {st st2 : vm_state} {p : page}
    (h : vm_do_claim_page st (some p) = some (true, st2)) (hu : p.operations = .uninit_ops) :
    ∃ kva, st2.spt = page_store st.spt (transmuted { p with frame := some ⟨kva, some p.va⟩ }) ∧
      st2.writes = st.writes := by
  unfold vm_do_claim_page at h
  cases hgf : vm_get_frame st with
  | none => simp [hgf] at h
  | some r =>
    obtain ⟨ofr, st1⟩ := r
    cases ofr with
    | none => simp [hgf] at h
    | some fr =>
      obtain ⟨g1, _, g3, _, _⟩ := vm_get_frame_some hgf
      simp only [hgf] at h
      split at h
      · simp at h
      · rename_i st3 hps
        obtain ⟨q1, q2, _, _, _⟩ := pml4_set_page_frame hps
        simp only at q1 q2
        split at h
        · simp at h
        · simp at h
        · rename_i st4 hsw
          simp only [Option.some.injEq, Prod.mk.injEq, true_and] at h
          subst h
          unfold swap_in at hsw
          simp only [hu] at hsw
          obtain ⟨k1, _, k3, _⟩ := uninit_initialize_true hsw
          refine ⟨fr.kva, ?_, ?_⟩
          · rw [k1, q1, g1]
            exact page_store_page_store st.spt _ _ rfl
          · rw [k3, q2, g3]

/-- The table after a successful `vm_alloc_page_with_initializer`. -/
theorem vm_alloc_true {st st1 : vm_state} {type upage : Nat} {w : Bool}
    {init : Option vm_initializer} {aux : Option uninit_aux}
    (h : vm_alloc_page_with_initializer st type upage w init aux = some (true, st1)) :
    ∃ ti, ((VM_TYPE type = VM_ANON ∧ ti = page_initializer.anon_initializer) ∨
        (VM_TYPE type = VM_FILE ∧ ti = page_initializer.file_backed_initializer)) ∧
      st1.spt = { uninit_new upage init type aux ti with writable := w } :: st.spt ∧
      spt_find_page st.spt upage = none ∧
      hash_find st.spt upage = none ∧
      st1.files = st.files ∧ st1.next_file = st.next_file ∧ st1.writes = st.writes := by
  unfold vm_alloc_page_with_initializer at h
  split at h
  · simp at h
  · split at h
    · rename_i hnone
      unfold malloc at h
      have hfn : spt_find_page st.spt upage = none := by
        simpa using hnone
      split at h
      · simp at h
      · rename_i st2 ho
        have hs : st2 = (oracle_next st).2 := by rw [ho]
        simp only at h
        split at h
        · simp at h
        · rename_i ti hti
          have hst2 : st2.spt = st.spt := by simp [hs]
          cases hhf : hash_find st.spt upage with
          | some old =>
            simp [spt_insert_page, hash_insert, uninit_new, hst2, hhf] at h
          | none =>
            simp only [spt_insert_page, hash_insert, uninit_new, hst2, hhf, Option.some.injEq,
              Prod.mk.injEq, true_and] at h
            subst h
            refine ⟨ti, ?_, ?_, hfn, rfl, ?_, ?_, ?_⟩
            · split at hti
              · rename_i ha
                left
                exact ⟨ha, by simpa using hti.symm⟩
              · split at hti
                · rename_i hf
                  right
                  exact ⟨hf, by simpa using hti.symm⟩
                · simp at hti
            · simp [uninit_new]
            · simp [hs]
            · simp [hs]
            · simp [hs]
    · simp at h

/-! ## Allocation, first fault, and the fault handler -/

/-- C3: for a requested kind `VM_ANON` or `VM_FILE` and a page-aligned
address, the page a successful `vm_alloc_page_with_initializer` leaves in the
table is uninitialized, has no frame, and `page_get_type` gives the requested
kind; after a successful `vm_do_claim_page` of that page (in any state that
holds the same table) the page found at the address has a frame whose
back-reference is that page, and the type of its operation table is the
requested kind. -/
theorem C3_alloc_uninit_then_claim (st st1 : vm_state) (type upage : Nat) (writable : Bool)
    (init : Option vm_initializer) (aux : Option uninit_aux)
    (hkind : type = VM_ANON ∨ type = VM_FILE) (hal : upage % PGSIZE = 0)
    (halloc : vm_alloc_page_with_initializer st type upage writable init aux = some (true, st1)) :
    ∃ p, spt_find_page st1.spt upage = some p ∧ p.operations = .uninit_ops ∧
      p.frame = none ∧ page_get_type p = type ∧
      ∀ st2 st3, st2.spt = st1.spt → vm_do_claim_page st2 (some p) = some (true, st3) →
        ∃ p3 fr, spt_find_page st3.spt upage = some p3 ∧ p3.frame = some fr ∧
          fr.page = some p3.va ∧ p3.va = upage ∧ p3.operations.type = type := by
  obtain ⟨ti, hti, hspt, _, _, _, _, _⟩ := vm_alloc_true halloc
  have hrd : pg_round_down upage = upage := pg_round_down_aligned _ hal
  obtain ⟨p, hp⟩ : ∃ p : page, p = { uninit_new upage init type aux ti with writable := writable } :=
    ⟨_, rfl⟩
  have hva : p.va = upage := by rw [hp]; rfl
  have hops : p.operations = .uninit_ops := by rw [hp]; rfl
  have hfr : p.frame = none := by rw [hp]; rfl
  have hty : p.uninit.type = type := by rw [hp]; rfl
  have hpi : p.uninit.page_initializer = ti := by rw [hp]; rfl
  rw [← hp] at hspt
  have hfind : hash_find st1.spt upage = some p := by
    rw [hspt, hash_find_cons]
    simp [hva]
  have hkind2 : VM_TYPE type = type := by
    rcases hkind with hk | hk <;> subst hk <;> rfl
  refine ⟨p, ?_, hops, hfr, ?_, ?_⟩
  · rw [spt_find_page, hrd]
    exact hfind
  · simp only [page_get_type, hops, hty, hkind2]
    rfl
  · intro st2 st3 hsame hclaim
    obtain ⟨kva, hs3, _⟩ := vm_do_claim_page_true hclaim hops
    refine ⟨transmuted { p with frame := some ⟨kva, some p.va⟩ }, ⟨kva, some p.va⟩, ?_, rfl, rfl,
      hva, ?_⟩
    · have hva3 : (transmuted { p with frame := some ⟨kva, some p.va⟩ }).va = upage := hva
      rw [spt_find_page, hrd, hs3, hash_find_page_store, hsame, hva3, hfind]
      simp
    · have hops3 : (transmuted { p with frame := some ⟨kva, some p.va⟩ }).operations
          = installed_ops ti := by
        simp only [transmuted, hpi]
      rw [hops3]
      rcases hti with ⟨h1, h2⟩ | ⟨h1, h2⟩
      · rw [h2, ← hkind2, h1]
        rfl
      · rw [h2, ← hkind2, h1]
        rfl

/-- C3, at a sample input: a writable `VM_FILE` page allocated at `0x400000`. -/
theorem C3_alloc_uninit_then_claim_witness :
    (VM_FILE = VM_ANON ∨ VM_FILE = VM_FILE) ∧ 0x400000 % PGSIZE = 0 ∧
    vm_alloc_page_with_initializer sample_state VM_FILE 0x400000 true none none
      = some (true, sample_allocated) ∧
    ∃ p, spt_find_page sample_allocated.spt 0x400000 = some p ∧ p.operations = .uninit_ops ∧
      p.frame = none ∧ page_get_type p = VM_FILE ∧
      ∀ st2 st3, st2.spt = sample_allocated.spt →
        vm_do_claim_page st2 (some p) = some (true, st3) →
        ∃ p3 fr, spt_find_page st3.spt 0x400000 = some p3 ∧ p3.frame = some fr ∧
          fr.page = some p3.va ∧ p3.va = 0x400000 ∧ p3.operations.type = VM_FILE :=
  ⟨by decide, by decide, by decide,
    C3_alloc_uninit_then_claim sample_state sample_allocated VM_FILE 0x400000 true none none
      (by decide) (by decide) (by decide)⟩

/-- C4: `vm_try_handle_fault` returns false and leaves the whole state as it
was (no frame taken, table and mappings unchanged) when the address is a
kernel address or null, or the table has no page for the page-rounded address,
or the access is a write and the page found is not writable; in every other
case its result is the result of `vm_do_claim_page` on the page found. -/
theorem C4_vm_try_handle_fault_cases (st : vm_state) (addr : Nat) (user write not_present : Bool) :
    ((is_kernel_vaddr addr = true ∨ addr = 0 ∨
        spt_find_page st.spt (pg_round_down addr) = none ∨
        (∃ p, spt_find_page st.spt (pg_round_down addr) = some p ∧
          write = true ∧ p.writable = false)) →
      vm_try_handle_fault st addr user write not_present = some (false, st)) ∧
    (∀ p, is_kernel_vaddr addr = false → addr ≠ 0 →
      spt_find_page st.spt (pg_round_down addr) = some p →
      (write = true → p.writable = true) →
      vm_try_handle_fault st addr user write not_present = vm_do_claim_page st (some p)) := by
  rw [spt_find_page_round st.spt addr]
  constructor
  · intro h
    unfold vm_try_handle_fault
    rcases h with h | h | h | ⟨p, h1, h2, h3⟩
    · simp [h]
    · simp [h]
    · split
      · rfl
      · simp [h]
    · split
      · rfl
      · simp [h1, h2, h3]
  · intro p h1 h2 h3 h4
    unfold vm_try_handle_fault
    have h5 : ¬ (write = true ∧ p.writable = false) := by
      intro ⟨a, b⟩
      rw [h4 a] at b
      exact Bool.noConfusion b
    simp [h1, h2, h3, h5]

/-- C4, at sample inputs: a kernel address is rejected, and a read fault on
the sample page is the claim of that page. -/
theorem C4_vm_try_handle_fault_cases_witness :
    vm_try_handle_fault sample_allocated KERN_BASE true false true = some (false, sample_allocated) ∧
    vm_try_handle_fault sample_allocated 0x400010 true false true
      = vm_do_claim_page sample_allocated (some sample_page) :=
  ⟨(C4_vm_try_handle_fault_cases sample_allocated KERN_BASE true false true).1
      (Or.inl (by decide)),
    (C4_vm_try_handle_fault_cases sample_allocated 0x400010 true false true).2 sample_page
      (by decide) (by decide) (by decide) (by decide)⟩


/-! ## Failed claims and failed or overlapping mappings -/

/-- C5, at the failing inputs: the sample page is claimed while
`pml4_set_page` fails (first part) and while the first `swap_in` fails (second
part).  Both times `vm_do_claim_page` returns false, no mapping is left and
the physical page is back in the pool, but the page in the table still holds
a frame, the released one. -/
theorem C5_failed_claim_leaves_released_frame :
    (vm_do_claim_page { sample_allocated with oracle := [true, false] } (some sample_page)).map
        (fun r => (r.1, (spt_find_page r.2.spt 0x400000).map (fun p => p.frame),
          r.2.user_pool, r.2.pml4))
      = some (false, some (some ⟨0x8004100000, some 0x400000⟩),
          [0x8004100000, 0x8004101000], []) ∧
    (vm_do_claim_page { sample_allocated with oracle := [true, true, false] }
          (some sample_page)).map
        (fun r => (r.1, (spt_find_page r.2.spt 0x400000).map (fun p => p.frame),
          r.2.user_pool, r.2.pml4))
      = some (false, some (some ⟨0x8004100000, some 0x400000⟩),
          [0x8004100000, 0x8004101000], []) := by
  constructor <;> decide

/-- C6, at the failing input: after `do_mmap (0x500000, 8192, ...)` succeeds
on the sample state and `do_munmap (0x500000)` follows, both pages of the
mapping have been passed to `free`, yet `spt_find_page` still finds a page at
`0x500000` and at `0x501000`: nothing was deleted from the table. -/
theorem C6_munmap_leaves_pages_in_table :
    ((do_mmap 3 sample_state 0x500000 8192 false 7 0).bind
        (fun r => do_munmap 3 r.2 0x500000)).map
        (fun s => ((spt_find_page s.spt 0x500000).isSome, (spt_find_page s.spt 0x501000).isSome,
          s.spt.length, s.freed))
      = some (true, true, 2, [0x500000, 0x501000]) := by
  decide

/-- The loop of `valid_vma_range` meets a page that lies in the range. -/
theorem valid_vma_range_finds (spt : List page) (a : Nat) (haw : a < WORD)
    (hp : (spt_find_page spt a).isSome) :
    ∀ fuel addr len, addr % PGSIZE = 0 → len < WORD → addr ≤ a → a < addr + len →
      (a - addr) / PGSIZE < fuel → valid_vma_range fuel spt addr len = some false := by
  intro fuel
  induction fuel with
  | zero => intro addr len _ _ _ _ h; exact absurd h (Nat.not_lt_zero _)
  | succ fuel ih =>
    intro addr len hal hlw h1 h2 hf
    unfold valid_vma_range
    have hpos : len > 0 := by omega
    simp only [hpos, if_true]
    by_cases hfind : (spt_find_page spt addr).isSome
    · simp [hfind]
    · simp only [hfind]
      have hne : pg_round_down a ≠ addr := by
        intro e
        rw [← spt_find_page_round, e] at hp
        exact hfind hp
      unfold pg_round_down at hne
      unfold PGSIZE at hal hne hf
      unfold WORD at haw hlw
      have hge : addr + 4096 ≤ a := by omega
      have hmove : (if PGSIZE < len then PGSIZE else len) = 4096 := by
        unfold PGSIZE
        split <;> omega
      have e1 : (addr + 4096) % WORD = addr + 4096 := by
        unfold WORD
        omega
      have e2 : (len + WORD - PGSIZE) % WORD = len - 4096 := by
        unfold WORD PGSIZE
        omega
      simp only [hmove, e1, e2]
      apply ih
      · unfold PGSIZE; omega
      · unfold WORD; omega
      · omega
      · omega
      · unfold PGSIZE; omega

/-- C7: when some address `a` of `[addr, addr + length)` has a page in the
table, `addr` being page-aligned, `do_mmap` returns `NULL` and the state,
hence the table, is unchanged; no page is inserted.  The fuel bound only says
that the check may run over all the pages of the range. -/
theorem C7_do_mmap_overlap_fails (fuel : Nat) (st : vm_state) (addr length a : Nat)
    (writable : Bool) (file : Nat) (offset : Int)
    (hal : addr % PGSIZE = 0) (hlw : length < WORD) (haw : a < WORD)
    (h1 : addr ≤ a) (h2 : a < addr + length) (hp : (spt_find_page st.spt a).isSome)
    (hfuel : length / PGSIZE < fuel) :
    do_mmap fuel st addr length writable file offset = some (0, st) := by
  have hv : valid_vma_range fuel st.spt addr length = some false := by
    apply valid_vma_range_finds st.spt a haw hp fuel addr length hal hlw h1 h2
    have : (a - addr) / PGSIZE ≤ length / PGSIZE := Nat.div_le_div_right (by omega)
    omega
  simp [do_mmap, hv]

/-- C7, at a sample input: the second page of the requested range
`[0x3ff000, 0x401000)` is the sample page, the first one is free. -/
theorem C7_do_mmap_overlap_fails_witness :
    0x3ff000 % PGSIZE = 0 ∧ 8192 < WORD ∧ 0x400010 < WORD ∧ 0x3ff000 ≤ 0x400010 ∧
    0x400010 < 0x3ff000 + 8192 ∧ (spt_find_page sample_allocated.spt 0x400010).isSome ∧
    8192 / PGSIZE < 3 ∧
    do_mmap 3 sample_allocated 0x3ff000 8192 true 7 0 = some (0, sample_allocated) :=
  ⟨by decide, by decide, by decide, by decide, by decide, by decide, by decide,
    C7_do_mmap_overlap_fails 3 sample_allocated 0x3ff000 8192 0x400010 true 7 0
      (by decide) (by decide) (by decide) (by decide) (by decide) (by decide) (by decide)⟩

/-- C8, at the failing inputs: `do_mmap (0x500000, 8192, ...)` on the sample
state, where `file_reopen` fails for the second page (first part) and where
`vm_alloc_page_with_initializer` fails for the second page (second part).
Both times `do_mmap` returns `NULL`, and the page it inserted for the first
unit is still found in the table, which held no page before the call. -/
theorem C8_partial_mapping_stays :
    sample_state.spt = [] ∧
    (do_mmap 3 { sample_state with oracle := [true, true, true, false] }
          0x500000 8192 false 7 0).map
        (fun r => (r.1, (spt_find_page r.2.spt 0x500000).isSome, r.2.spt.length))
      = some (0, true, 1) ∧
    (do_mmap 3 { sample_state with oracle := [true, true, true, true, true, false] }
          0x500000 8192 false 7 0).map
        (fun r => (r.1, (spt_find_page r.2.spt 0x500000).isSome, r.2.spt.length))
      = some (0, true, 1) := by
  refine ⟨?_, ?_, ?_⟩ <;> decide

/-! ## Successful mappings -/

theorem valid_vma_range_true_mod :
    ∀ fuel spt addr len, valid_vma_range fuel spt addr len = some true → len % PGSIZE = 0 := by
  intro fuel
  induction fuel with
  | zero => intro spt addr len h; simp [valid_vma_range] at h
  | succ fuel ih =>
    intro spt addr len h
    unfold valid_vma_range at h
    split at h
    · split at h
      · simp at h
      · have := ih _ _ _ h
        unfold WORD PGSIZE at this
        unfold PGSIZE
        omega
    · unfold PGSIZE
      omega

theorem file_reopen_some {st st1 : vm_state} {file d : Nat}
    (h : file_reopen st file = some (d, st1)) (hd : d ≠ 0) :
    d = st.next_file + 1 ∧ st1.next_file = st.next_file + 1 ∧ st1.spt = st.spt := by
  unfold file_reopen at h
  split at h
  · simp at h
  · split at h
    · simp only [Option.some.injEq, Prod.mk.injEq] at h
      exact absurd h.1.symm hd
    · rename_i st2 ho
      have hs : st2 = (oracle_next st).2 := by rw [ho]
      simp only [Option.some.injEq, Prod.mk.injEq] at h
      obtain ⟨h1, h2⟩ := h
      subst h2
      simp [← h1, hs]

theorem mmap_unit_succ (base upage : Nat) (ofs : Int) (rb : Nat) (w : Bool) (h0 i : Nat) :
    mmap_unit base (upage + PGSIZE) (ofs + PGSIZE)
        (rb - (if rb < PGSIZE then rb else PGSIZE)) w (h0 + 1) i
      = mmap_unit base upage ofs rb w h0 (i + 1) := by
  have e1 : upage + PGSIZE + i * PGSIZE = upage + (i + 1) * PGSIZE := by ring
  have e2 : ofs + (PGSIZE : Int) + ((i * PGSIZE : Nat) : Int)
      = ofs + (((i + 1) * PGSIZE : Nat) : Int) := by
    push_cast
    ring
  have e3 : min PGSIZE (rb - (if rb < PGSIZE then rb else PGSIZE) - i * PGSIZE)
      = min PGSIZE (rb - (i + 1) * PGSIZE) := by
    unfold PGSIZE
    split <;> omega
  have e4 : h0 + 1 + i = h0 + (i + 1) := by omega
  simp only [mmap_unit, e1, e2, e3, e4]

theorem wrap_off_t_ge (x : Int) : -2147483648 ≤ wrap_off_t x := by
  unfold wrap_off_t
  omega

theorem wrap_off_t_eq (x : Int) (h1 : -2147483648 ≤ x) (h2 : x < 2147483648) :
    wrap_off_t x = x := by
  unfold wrap_off_t
  omega

/-- The pages a successful run of the loop of `do_mmap` adds to the table,
when no unit address reaches `WORD` and every unit offset is an `off_t`. -/
theorem do_mmap_loop_spt (addr : Nat) (w : Bool) (file : Nat) :
    ∀ n st upage ofs rb r st',
      (∀ i, i < n → upage + i * PGSIZE < WORD) →
      (∀ i, i < n → ofs + ((i * PGSIZE : Nat) : Int) < 2147483648) →
      -2147483648 ≤ ofs →
      do_mmap_loop addr w file n st upage ofs rb = some (r, st') → r ≠ 0 →
      r = addr ∧
      st'.spt = ((List.range n).map (mmap_unit addr upage ofs rb w (st.next_file + 1))).reverse
          ++ st.spt := by
  intro n
  induction n with
  | zero =>
    intro st upage ofs rb r st' _ _ _ h _
    simp only [do_mmap_loop, Option.some.injEq, Prod.mk.injEq] at h
    simp [← h.1, ← h.2]
  | succ n ih =>
    intro st upage ofs rb r st' hptr hofs hlo h hr
    unfold do_mmap_loop at h
    simp only at h
    split at h
    · simp at h
    · rename_i d st1 hre
      split at h
      · simp only [Option.some.injEq, Prod.mk.injEq] at h
        exact absurd h.1.symm hr
      · rename_i hd
        obtain ⟨hd1, hnf, hspt1⟩ := file_reopen_some hre hd
        unfold malloc at h
        split at h
        · simp at h
        · rename_i st2 ho
          have hs : st2 = (oracle_next st1).2 := by rw [ho]
          split at h
          · simp at h
          · simp only [Option.some.injEq, Prod.mk.injEq] at h
            exact absurd h.1.symm hr
          · rename_i st3 hal
            obtain ⟨ti, hti, hspt3, _, _, _, hnf3, _⟩ := vm_alloc_true hal
            have hti2 : ti = page_initializer.file_backed_initializer := by
              rcases hti with ⟨h1, _⟩ | ⟨_, h2⟩
              · exact absurd h1 (by decide)
              · exact h2
            have hnext : ∀ i, i < n →
                (upage + PGSIZE) % WORD = upage + PGSIZE ∧
                wrap_off_t (ofs + PGSIZE) = ofs + PGSIZE := by
              intro i hi
              have a1 := hptr (i + 1) (by omega)
              have a2 := hofs (i + 1) (by omega)
              constructor
              · apply Nat.mod_eq_of_lt
                unfold PGSIZE at a1 ⊢
                omega
              · apply wrap_off_t_eq
                · unfold PGSIZE
                  omega
                · unfold PGSIZE at a2 ⊢
                  omega
            have hptr2 : ∀ i, i < n → (upage + PGSIZE) % WORD + i * PGSIZE < WORD := by
              intro i hi
              rw [(hnext i hi).1]
              have a1 := hptr (i + 1) (by omega)
              unfold PGSIZE at a1 ⊢
              omega
            have hofs2 : ∀ i, i < n →
                wrap_off_t (ofs + PGSIZE) + ((i * PGSIZE : Nat) : Int) < 2147483648 := by
              intro i hi
              rw [(hnext i hi).2]
              have a2 := hofs (i + 1) (by omega)
              unfold PGSIZE at a2 ⊢
              omega
            obtain ⟨hra, hfin⟩ :=
              ih _ _ _ _ _ _ hptr2 hofs2 (wrap_off_t_ge _) h hr
            refine ⟨hra, ?_⟩
            have hnf3b : st3.next_file = st.next_file + 1 := by
              rw [hnf3, hs]
              simpa using hnf
            have hspt2 : st2.spt = st.spt := by
              rw [hs]
              simpa using hspt1
            have e1 : List.map (mmap_unit addr ((upage + PGSIZE) % WORD)
                  (wrap_off_t (ofs + PGSIZE)) (rb - (if rb < PGSIZE then rb else PGSIZE)) w
                  (st.next_file + 1 + 1)) (List.range n)
                = List.map (mmap_unit addr upage ofs rb w (st.next_file + 1) ∘ Nat.succ)
                  (List.range n) := by
              apply List.map_congr_left
              intro i hi
              have hi2 : i < n := List.mem_range.mp hi
              simp only [Function.comp_apply]
              rw [(hnext i hi2).1, (hnext i hi2).2]
              exact mmap_unit_succ addr upage ofs rb w (st.next_file + 1) i
            rw [hfin, hspt3, hspt2, hnf3b, List.range_succ_eq_map, List.map_cons, List.map_map,
              List.reverse_cons, List.append_assoc, e1]
            congr 1
            rw [hti2, hd1]
            simp [mmap_unit, uninit_new, PGSIZE]
            constructor <;> split <;> omega

theorem hash_find_units (f : Nat → page) (t : List page) (i : Nat) :
    ∀ n, i < n → (∀ j, j < n → (f j).va = (f i).va → j = i) →
      hash_find (((List.range n).map f).reverse ++ t) (f i).va = some (f i) := by
  intro n
  induction n with
  | zero => intro h; omega
  | succ n ih =>
    intro hi hinj
    rw [List.range_succ, List.map_append, List.reverse_append]
    simp only [List.map_cons, List.map_nil, List.reverse_cons, List.reverse_nil, List.nil_append,
      List.singleton_append, List.cons_append, hash_find_cons]
    by_cases hn : (f n).va = (f i).va
    · have := hinj n (by omega) hn
      simp [this]
    · simp only [hn, if_false]
      have hin : i < n := by
        rcases Nat.lt_succ_iff_lt_or_eq.mp hi with h | h
        · exact h
        · subst h
          exact absurd rfl hn
      exact ih hin (fun j hj => hinj j (by omega))

theorem read_bytes_sum (length : Nat) :
    ∀ n, ((List.range n).map (fun i => min PGSIZE (length - i * PGSIZE))).sum
      = min length (n * PGSIZE) := by
  intro n
  induction n with
  | zero => simp
  | succ n ih =>
    rw [List.range_succ, List.map_append, List.sum_append, ih]
    simp only [List.map_cons, List.map_nil, List.sum_cons, List.sum_nil]
    unfold PGSIZE
    omega

/-- C9, as stated, fails at two inputs.  First part: `do_mmap (0x500000,
8192, ...)` of the sample file at offset `0x7ffff000` succeeds, and the second
unit, found at `0x501000`, carries the file offset `-2147483648`, not
`0x7ffff000 + PGSIZE`, which is no `off_t`.  Second part: `do_mmap` of `8192`
bytes at `0xfffffffffffff000` succeeds, and the second unit is at address `0`;
no page is found at `0xfffffffffffff000 + PGSIZE`. -/
theorem C9_unit_offset_and_address_wrap :
    ((do_mmap 3 sample_state 0x500000 8192 true 7 0x7ffff000).map
          (fun r => (r.1, (spt_find_page r.2.spt (0x500000 + 1 * PGSIZE)).map
            (fun p => p.uninit.aux.map (fun a => a.page_pos))))
        = some (0x500000, some (some (-2147483648))) ∧
      (0x7ffff000 : Int) + ((1 * PGSIZE : Nat) : Int) ≠ -2147483648) ∧
    (do_mmap 3 sample_state 0xfffffffffffff000 8192 true 7 0).map
        (fun r => (r.1, (spt_find_page r.2.spt (0xfffffffffffff000 + 1 * PGSIZE)).isSome,
          (spt_find_page r.2.spt 0).map (fun p => p.uninit.aux.map (fun a => a.page_pos))))
      = some (0xfffffffffffff000, false, some (some 4096)) := by
  refine ⟨⟨?_, ?_⟩, ?_⟩ <;> decide

/-- C9, amended: let `do_mmap` with page-aligned `addr` return a non-null
pointer, every unit address `addr + i * PGSIZE` being below `2 ^ 64` and
every unit offset `offset + i * PGSIZE` lying in the range of the 32-bit
signed `off_t`.  Then it returns `addr`, and with `n = ceil (length / PGSIZE)`
it adds to the table exactly the `n` pages `mmap_unit ... i`, `i < n`,
nothing else changing in the table: the page found at `addr + i * PGSIZE` is
uninitialized with target kind `VM_FILE`, the requested writable bit, group
identity `addr`, file offset `offset + i * PGSIZE`,
`min (PGSIZE, length - i * PGSIZE)` bytes to read and the rest of the page to
zero; the file handles of two different units differ; and the bytes to read
add up to `length`. -/
theorem C9_do_mmap_units (fuel : Nat) (st st' : vm_state) (addr length r : Nat)
    (writable : Bool) (file : Nat) (offset : Int)
    (hal : addr % PGSIZE = 0) (hlw : length < WORD)
    (hptr : ∀ i, i < (length + PGSIZE - 1) / PGSIZE → addr + i * PGSIZE < WORD)
    (hlo : -2147483648 ≤ offset)
    (hofs : ∀ i, i < (length + PGSIZE - 1) / PGSIZE →
      offset + ((i * PGSIZE : Nat) : Int) < 2147483648)
    (h : do_mmap fuel st addr length writable file offset = some (r, st')) (hr : r ≠ 0) :
    r = addr ∧
    st'.spt = ((List.range ((length + PGSIZE - 1) / PGSIZE)).map
        (mmap_unit addr addr offset length writable (st.next_file + 1))).reverse ++ st.spt ∧
    (∀ i, i < (length + PGSIZE - 1) / PGSIZE →
      spt_find_page st'.spt (addr + i * PGSIZE)
        = some (mmap_unit addr addr offset length writable (st.next_file + 1) i)) ∧
    (∀ i j, i ≠ j →
      (mmap_unit addr addr offset length writable (st.next_file + 1) i).uninit.aux.map
          (fun a => a.file)
        ≠ (mmap_unit addr addr offset length writable (st.next_file + 1) j).uninit.aux.map
          (fun a => a.file)) ∧
    ((List.range ((length + PGSIZE - 1) / PGSIZE)).map
        (fun i => min PGSIZE (length - i * PGSIZE))).sum = length := by
  unfold do_mmap at h
  split at h
  · simp at h
  · simp only [Option.some.injEq, Prod.mk.injEq] at h
    exact absurd h.1.symm hr
  · rename_i hv
    have hmod := valid_vma_range_true_mod _ _ _ _ hv
    have hn : DIV_ROUND_UP length PGSIZE = (length + PGSIZE - 1) / PGSIZE := by
      have hlt : length + PGSIZE - 1 < WORD := by
        unfold WORD PGSIZE at *
        omega
      unfold DIV_ROUND_UP
      rw [Nat.mod_eq_of_lt hlt]
    rw [hn] at h
    obtain ⟨hra, hspt⟩ := do_mmap_loop_spt addr writable file _ _ _ _ _ _ _ hptr hofs hlo h hr
    refine ⟨hra, hspt, ?_, ?_, ?_⟩
    · intro i hi
      have hva : (mmap_unit addr addr offset length writable (st.next_file + 1) i).va
          = addr + i * PGSIZE := rfl
      have hrd : pg_round_down (addr + i * PGSIZE) = addr + i * PGSIZE := by
        apply pg_round_down_aligned
        rw [Nat.add_mul_mod_self_right]
        exact hal
      rw [spt_find_page, hrd, hspt, ← hva]
      apply hash_find_units _ _ _ _ hi
      intro j _ hj
      have hj2 : addr + j * PGSIZE = addr + i * PGSIZE := hj
      unfold PGSIZE at hj2
      omega
    · intro i j hij
      simp only [mmap_unit, Option.map_some', ne_eq, Option.some.injEq]
      omega
    · rw [read_bytes_sum]
      unfold PGSIZE at hmod ⊢
      omega

/-- C9, amended, at the sample input of the design: `do_mmap (0x500000, 8192,
...)` on the sample state, a mapping of two pages at offset `0`. -/
theorem C9_do_mmap_units_witness :
    0x500000 % PGSIZE = 0 ∧ 8192 < WORD ∧
    (∀ i, i < (8192 + PGSIZE - 1) / PGSIZE → 0x500000 + i * PGSIZE < WORD) ∧
    (∀ i, i < (8192 + PGSIZE - 1) / PGSIZE →
      (0 : Int) + ((i * PGSIZE : Nat) : Int) < 2147483648) ∧
    do_mmap 3 sample_state 0x500000 8192 false 7 0 = some (0x500000, sample_mapped) ∧
    0x500000 ≠ 0 ∧
    sample_mapped.spt = ((List.range ((8192 + PGSIZE - 1) / PGSIZE)).map
        (mmap_unit 0x500000 0x500000 0 8192 false (sample_state.next_file + 1))).reverse
          ++ sample_state.spt ∧
    (∀ i, i < (8192 + PGSIZE - 1) / PGSIZE →
      spt_find_page sample_mapped.spt (0x500000 + i * PGSIZE)
        = some (mmap_unit 0x500000 0x500000 0 8192 false (sample_state.next_file + 1) i)) :=
  ⟨by decide, by decide, by decide, by decide, by decide, by decide,
    (C9_do_mmap_units 3 sample_state sample_mapped 0x500000 8192 0x500000 false 7 0
      (by decide) (by decide) (by decide) (by decide) (by decide) (by decide) (by decide)).2.1,
    (C9_do_mmap_units 3 sample_state sample_mapped 0x500000 8192 0x500000 false 7 0
      (by decide) (by decide) (by decide) (by decide) (by decide) (by decide) (by decide)).2.2.1⟩

/-! ## Write-back on removal -/

theorem file_close_writes (st : vm_state) (f : Nat) : (file_close st f).writes = st.writes := rfl

/-- The calls of `file_write_at` that the removal of one page adds. -/
theorem spt_remove_page_writes {st st1 : vm_state} {pg : page}
    (h : spt_remove_page st pg = some st1) :
    ∃ l, st1.writes = st.writes ++ l ∧ ∀ w ∈ l, w.page = pg.va := by
  unfold spt_remove_page vm_dealloc_page at h
  split at h
  · simp at h
  · rename_i s hd
    simp only [Option.some.injEq] at h
    subst h
    simp only
    unfold destroy at hd
    split at hd
    · simp only [Option.some.injEq] at hd
      subst hd
      refine ⟨[], ?_, by simp⟩
      unfold uninit_destroy
      split <;> simp
    · simp only [Option.some.injEq] at hd
      subst hd
      exact ⟨[], by simp, by simp⟩
    · unfold file_backed_destroy at hd
      simp only at hd
      split at hd
      · simp at hd
      · rename_i s1 hr
        have hs1 : ∃ l, s1.writes = st.writes ++ l ∧ ∀ w ∈ l, w.page = pg.va := by
          split at hr
          · unfold write_back at hr
            split at hr
            · simp at hr
            · simp only [Option.some.injEq] at hr
              subst hr
              exact ⟨_, rfl, by simp⟩
          · simp only [Option.some.injEq] at hr
            subst hr
            exact ⟨[], by simp, by simp⟩
        split at hd
        · simp only [Option.some.injEq] at hd
          subst hd
          exact hs1
        · simp only [Option.some.injEq] at hd
          subst hd
          simpa [file_close_writes] using hs1

/-- The calls of `file_write_at` that the loop of `do_munmap` adds are made
for pages at or above the address the loop starts from. -/
theorem do_munmap_loop_writes (g : Nat) :
    ∀ fuel st addr st', do_munmap_loop g fuel st addr = some st' →
      ∃ tail, st'.writes = st.writes ++ tail ∧ ∀ w ∈ tail, pg_round_down addr ≤ w.page := by
  intro fuel
  induction fuel with
  | zero => intro st addr st' h; simp [do_munmap_loop] at h
  | succ fuel ih =>
    intro st addr st' h
    unfold do_munmap_loop at h
    split at h
    · simp only [Option.some.injEq] at h
      subst h
      exact ⟨[], by simp, by simp⟩
    · rename_i pg hfind
      have hva : pg.va = pg_round_down addr := hash_find_va hfind
      split at h
      · simp only [Option.some.injEq] at h
        subst h
        exact ⟨[], by simp, by simp⟩
      · split at h
        · simp at h
        · split at h
          · simp only [Option.some.injEq] at h
            subst h
            exact ⟨[], by simp, by simp⟩
          · split at h
            · simp at h
            · rename_i st1 hrm
              obtain ⟨l, hl, hlp⟩ := spt_remove_page_writes hrm
              obtain ⟨tail, ht, htp⟩ := ih _ _ _ h
              refine ⟨l ++ tail, by rw [ht, hl, List.append_assoc], ?_⟩
              intro w hw
              rcases List.mem_append.mp hw with hw | hw
              · rw [hlp w hw, hva]
              · have := htp w hw
                unfold pg_round_down PGSIZE at *
                omega

/-- C10: let the table hold at `addr` an uninitialized page with initializer
`file_load` and auxiliary data `a`, as `do_mmap` creates it, and let a claim
of it succeed; take any later state `st` in which the lookup of `addr` still
gives the page the claim left (the MMU may have set the dirty bit meanwhile,
other pages may have changed).  That page is file-backed and bound to a
frame, and removing it with `spt_remove_page` issues a write-back if and only
if the page is dirty in `st`: the recorded calls of `file_write_at` grow by
exactly one call when it is dirty, made on the file handle of `a`, from the
address of the frame of the page, with size `a.page_read_bytes` and offset
`a.page_pos`, and by none when it is not.  `do_munmap` at `addr`, and the
loop of `do_munmap` when it reaches `addr` for the group of `a`, perform this
removal and go on with the next page, and no call issued later in the loop is
made for this page. -/
theorem C10_write_back_iff_dirty (fuel : Nat) (st0 st : vm_state) (addr : Nat) (p0 : page)
    (a : uninit_aux)
    (h0 : spt_find_page st0.spt addr = some p0)
    (hops : p0.operations = .uninit_ops)
    (hinit : p0.uninit.init = some .file_load)
    (haux : p0.uninit.aux = some a)
    (hpi : p0.uninit.page_initializer = .file_backed_initializer)
    (hclaim : (vm_do_claim_page st0 (some p0)).map
        (fun r => (r.1, spt_find_page r.2.spt addr))
      = some (true, spt_find_page st.spt addr)) :
    ∃ p fr st2, spt_find_page st.spt addr = some p ∧ p.operations = .file_ops ∧
      p.frame = some fr ∧
      spt_remove_page st p = some st2 ∧
      st2.writes = st.writes ++
        (if pml4_is_dirty st.pml4 p.va then
          [⟨p.va, a.file, fr.kva, a.page_read_bytes, a.page_pos⟩] else []) ∧
      do_munmap (fuel + 1) st addr = do_munmap_loop a.mmap_base fuel st2 (addr + PGSIZE) ∧
      do_munmap_loop a.mmap_base (fuel + 1) st addr
        = do_munmap_loop a.mmap_base fuel st2 (addr + PGSIZE) ∧
      ∀ st', do_munmap_loop a.mmap_base fuel st2 (addr + PGSIZE) = some st' →
        ∃ tail, st'.writes = st2.writes ++ tail ∧ ∀ w ∈ tail, w.page ≠ p.va := by
  cases hc : vm_do_claim_page st0 (some p0) with
  | none => simp [hc] at hclaim
  | some r =>
    obtain ⟨b, st1⟩ := r
    simp only [hc, Option.map_some', Option.some.injEq, Prod.mk.injEq] at hclaim
    obtain ⟨hb, hsame⟩ := hclaim
    subst hb
    obtain ⟨kva, hs1, _⟩ := vm_do_claim_page_true hc hops
    obtain ⟨p, hp⟩ : ∃ p : page, p = transmuted { p0 with frame := some ⟨kva, some p0.va⟩ } :=
      ⟨_, rfl⟩
    rw [← hp] at hs1
    have hva0 : p0.va = pg_round_down addr := hash_find_va h0
    have hva : p.va = pg_round_down addr := by rw [hp]; exact hva0
    have hpops : p.operations = .file_ops := by
      rw [hp]
      simp [transmuted, hpi, installed_ops]
    have hpfr : p.frame = some ⟨kva, some p0.va⟩ := by rw [hp]; rfl
    have hpfile : p.file
        = ⟨a.file, a.mmap_base, a.page_pos, a.page_read_bytes, a.page_zero_bytes⟩ := by
      rw [hp]
      simp [transmuted, hinit, haux]
    have hfind : spt_find_page st.spt addr = some p := by
      have h0b : hash_find st0.spt (pg_round_down addr) = some p0 := h0
      rw [← hsame, spt_find_page, hs1, hash_find_page_store, hva, h0b]
      simp
    have hrm : ∃ st2, spt_remove_page st p = some st2 ∧
        st2.writes = st.writes ++
          (if pml4_is_dirty st.pml4 p.va then
            [⟨p.va, a.file, kva, a.page_read_bytes, a.page_pos⟩] else []) := by
      unfold spt_remove_page vm_dealloc_page destroy file_backed_destroy write_back
      simp only [hpops, hpfr, hpfile]
      cases hdirty : pml4_is_dirty st.pml4 p.va <;> by_cases hz : a.file = 0 <;>
        simp [hz, file_close]
    obtain ⟨st2, hrm1, hrm2⟩ := hrm
    have hty : page_get_type p = VM_FILE := by
      simp only [page_get_type, hpops]
      rfl
    have hgrp : get_group_number p = some a.mmap_base := by
      simp only [get_group_number, hpops, hpfile]
    refine ⟨p, ⟨kva, some p0.va⟩, st2, hfind, hpops, hpfr, hrm1, hrm2, ?_, ?_, ?_⟩
    · simp [do_munmap, do_munmap_loop, hfind, hty, hgrp, hrm1]
    · simp [do_munmap_loop, hfind, hty, hgrp, hrm1]
    · intro st' hloop
      obtain ⟨tail, ht, htp⟩ := do_munmap_loop_writes _ _ _ _ _ hloop
      refine ⟨tail, ht, ?_⟩
      intro w hw
      have := htp w hw
      rw [hva]
      unfold pg_round_down PGSIZE at *
      omega

/-- C10, at a sample input: the one-page writable mapping of the sample file
at `0x500000`, faulted in and then written to. -/
theorem C10_write_back_iff_dirty_witness :
    spt_find_page sample_before_fault.spt 0x500000 = some sample_unit ∧
    (vm_do_claim_page sample_before_fault (some sample_unit)).map
        (fun r => (r.1, spt_find_page r.2.spt 0x500000))
      = some (true, spt_find_page sample_dirty.spt 0x500000) ∧
    pml4_is_dirty sample_dirty.pml4 0x500000 = true ∧
    ∃ p fr st2, spt_find_page sample_dirty.spt 0x500000 = some p ∧ p.operations = .file_ops ∧
      p.frame = some fr ∧
      spt_remove_page sample_dirty p = some st2 ∧
      st2.writes = sample_dirty.writes ++
        (if pml4_is_dirty sample_dirty.pml4 p.va then
          [⟨p.va, sample_unit_aux.file, fr.kva, sample_unit_aux.page_read_bytes,
            sample_unit_aux.page_pos⟩] else []) ∧
      do_munmap (2 + 1) sample_dirty 0x500000
        = do_munmap_loop sample_unit_aux.mmap_base 2 st2 (0x500000 + PGSIZE) ∧
      do_munmap_loop sample_unit_aux.mmap_base (2 + 1) sample_dirty 0x500000
        = do_munmap_loop sample_unit_aux.mmap_base 2 st2 (0x500000 + PGSIZE) ∧
      ∀ st', do_munmap_loop sample_unit_aux.mmap_base 2 st2 (0x500000 + PGSIZE) = some st' →
        ∃ tail, st'.writes = st2.writes ++ tail ∧ ∀ w ∈ tail, w.page ≠ p.va :=
  ⟨by decide, by decide, by decide,
    C10_write_back_iff_dirty 2 sample_before_fault sample_dirty 0x500000 sample_unit
      sample_unit_aux (by decide) (by decide) (by decide) (by decide) (by decide) (by decide)⟩


/-! ## Removal of never-faulted pages, fork-copy, page contents, range check -/

/-- C11, at the failing input: the two never-faulted pages of the sample
mapping, which hold the re-opened handles `8` and `9` in their auxiliary data,
are removed by `do_munmap (0x500000)` (first part) and by
`supplemental_page_table_kill` (second part).  Both times both pages are
freed and no write-back is issued, but `file_close` is never called and both
handles stay open. -/
theorem C11_unfaulted_page_handle_stays_open :
    sample_mapped.spt.map (fun p => (p.operations, p.uninit.aux.map (fun a => a.file)))
      = [(.uninit_ops, some 9), (.uninit_ops, some 8)] ∧
    ((do_munmap 3 sample_mapped 0x500000).map (fun s => (s.freed, s.writes))
        = some ([0x500000, 0x501000], []) ∧
      (do_munmap 3 sample_mapped 0x500000).map (fun s => (s.closed, s.files))
        = some ([], [(9, 1), (8, 1), (7, 1)])) ∧
    ((supplemental_page_table_kill sample_mapped).map (fun s => (s.freed, s.writes))
        = some ([0x501000, 0x500000], []) ∧
      (supplemental_page_table_kill sample_mapped).map (fun s => (s.closed, s.files))
        = some ([], [(9, 1), (8, 1), (7, 1)])) := by
  refine ⟨?_, ⟨?_, ?_⟩, ⟨?_, ?_⟩⟩ <;> decide

theorem blit_getD (buf src : List Nat) (pos k : Nat) (hk : k < PGSIZE) :
    (blit buf pos src).getD k 0
      = if pos ≤ k ∧ k < pos + src.length then src.getD (k - pos) 0 else buf.getD k 0 := by
  unfold blit
  rw [List.getD_eq_getElem?_getD, List.getElem?_map, List.getElem?_range hk]
  rfl

attribute [irreducible] blit

theorem sample_stale_mem :
    (vm_do_claim_page sample_stale (some sample_unit)).map (fun r => mem_load r.2 0x8004100000)
      = some (blit (blit [7, 7, 7, 7, 7] 0 [1, 2, 3]) 4096 (List.replicate 0 0)) := by
  rfl

/-- C13, at the failing input: the one-page mapping of the sample file, which
is three bytes long, with `page_read_bytes = PGSIZE` and `page_zero_bytes = 0`;
the physical page the fault obtains still holds `7, 7, 7, 7, 7` from an
earlier use.  The first `swap_in` succeeds and the frame starts with the three
bytes of the file, but bytes 3 and 4, which lie before `page_read_bytes` and
past the end of the file, are still `7` and not zero. -/
theorem C13_short_read_leaves_stale_bytes :
    file_data sample_stale 8 = some [1, 2, 3] ∧
    sample_unit.uninit.aux = some sample_unit_aux ∧
    sample_unit_aux.page_read_bytes + sample_unit_aux.page_zero_bytes = PGSIZE ∧
    (vm_do_claim_page sample_stale (some sample_unit)).map (fun r => r.1) = some true ∧
    (vm_do_claim_page sample_stale (some sample_unit)).map
        (fun r => (spt_find_page r.2.spt 0x500000).map (fun p => p.frame))
      = some (some (some ⟨0x8004100000, some 0x500000⟩)) ∧
    (vm_do_claim_page sample_stale (some sample_unit)).map
        (fun r => ((mem_load r.2 0x8004100000).getD 0 0, (mem_load r.2 0x8004100000).getD 2 0,
          (mem_load r.2 0x8004100000).getD 3 0, (mem_load r.2 0x8004100000).getD 4 0))
      = some (1, 3, 7, 7) := by
  refine ⟨by decide, by decide, by decide, by decide, by decide, ?_⟩
  have h := sample_stale_mem
  cases hc : vm_do_claim_page sample_stale (some sample_unit) with
  | none =>
    rw [hc] at h
    simp at h
  | some r =>
    rw [hc] at h
    simp only [Option.map_some', Option.some.injEq] at h
    simp only [Option.map_some', h]
    rw [blit_getD _ _ _ _ (by decide : 0 < PGSIZE), blit_getD _ _ _ _ (by decide : 2 < PGSIZE),
      blit_getD _ _ _ _ (by decide : 3 < PGSIZE), blit_getD _ _ _ _ (by decide : 4 < PGSIZE)]
    rw [blit_getD _ _ _ _ (by decide : 0 < PGSIZE), blit_getD _ _ _ _ (by decide : 2 < PGSIZE),
      blit_getD _ _ _ _ (by decide : 3 < PGSIZE), blit_getD _ _ _ _ (by decide : 4 < PGSIZE)]
    rfl

theorem valid_vma_range_spins :
    ∀ fuel addr len, len % PGSIZE ≠ 0 → len < WORD → valid_vma_range fuel [] addr len = none := by
  intro fuel
  induction fuel with
  | zero => intro addr len _ _; rfl
  | succ fuel ih =>
    intro addr len hm hl
    unfold valid_vma_range
    have hpos : len > 0 := by
      unfold PGSIZE at hm
      omega
    have hfind : (spt_find_page [] addr).isSome = false := rfl
    simp only [hpos, if_true, hfind]
    apply ih
    · unfold WORD PGSIZE at *
      omega
    · unfold WORD PGSIZE at *
      omega

/-- C14, at the failing inputs.  First part: the table holds a page at
`0x400000` only, and the range is the `100` bytes from `0x3ff000`, one page
with no page in the table; `valid_vma_range` inspects three addresses, the
last one `0x400064` outside the range, and returns false.  Second part: on
the empty table, for the `100` bytes from `0x500000`, the loop is still
running after any number of iterations, so `valid_vma_range` never returns. -/
theorem C14_valid_vma_range_partial_page :
    ((100 + PGSIZE - 1) / PGSIZE = 1 ∧
      spt_find_page sample_allocated.spt 0x3ff000 = none ∧
      valid_vma_range 2 sample_allocated.spt 0x3ff000 100 = none ∧
      valid_vma_range 3 sample_allocated.spt 0x3ff000 100 = some false) ∧
    ∀ fuel, valid_vma_range fuel [] 0x500000 100 = none := by
  refine ⟨⟨by decide, by decide, by decide, by decide⟩, ?_⟩
  intro fuel
  exact valid_vma_range_spins fuel 0x500000 100 (by decide) (by decide)


/-! ## Fork-copy of a resident anonymous page -/

theorem mem_load_congr {st st1 : vm_state} (h : st1.mem = st.mem) (k : Nat) :
    mem_load st1 k = mem_load st k := by
  unfold mem_load
  rw [h]

theorem page_bytes_congr {st st1 : vm_state} (h : st1.mem = st.mem) (k : Nat) :
    page_bytes st1 k = page_bytes st k := by
  unfold page_bytes
  rw [mem_load_congr h]

end Pintos
